import Mathlib

/-!
Verification of the request-interpretation and relay pipeline of
`src/proxy.py` (class `Proxy`).

Python strings are modelled as `List Char` (Python indexes and slices by
code points, exactly matching `List Char`); the raw request bytes are
modelled by their UTF-8 decoded text, since every string operation in the
program runs on the decoded text and UTF-8 round-trips.  Python exceptions
are modelled with `Except PyExc` / explicit outcome constructors.
-/

namespace ProxyModel

/-- Python exceptions relevant to the program. -/
inductive PyExc
  | indexError
  | socketError
  | keyboardInterrupt
deriving DecidableEq

/-- Python `s.split(c)` for a one-character separator: split at every
occurrence, keeping empty components (`''.split(c) = ['']`). -/
def splitChar (c : Char) : List Char → List (List Char)
  | [] => [[]]
  | x :: rest =>
    if x = c then [] :: splitChar c rest
    else
      match splitChar c rest with
      | [] => [[x]]
      | y :: ys => (x :: y) :: ys

/-- Prepend a character to the first component of a split result. -/
def consHead (x : Char) : List (List Char) → List (List Char)
  | [] => [[x]]
  | y :: ys => (x :: y) :: ys

/-- Python `s.split("\r\n")`: split at every non-overlapping occurrence of
the two-character separator, scanning left to right. -/
def splitCRLF : List Char → List (List Char)
  | [] => [[]]
  | [x] => [[x]]
  | x :: y :: rest =>
    if x = '\r' ∧ y = '\n' then [] :: splitCRLF rest
    else consHead x (splitCRLF (y :: rest))

/-- Whether the text contains an adjacent `'\r'`,`'\n'` pair (i.e. the
CRLF separator occurs in it). -/
def hasCRLF : List Char → Bool
  | x :: y :: rest =>
    if x = '\r' ∧ y = '\n' then true else hasCRLF (y :: rest)
  | _ => false

/-- Python `s.find(pat)` (as `Option`): index of the first occurrence of
`pat` in `s`, `none` when absent (`-1` in Python). -/
def pyFind (pat : List Char) : List Char → Option Nat
  | [] => if pat.isPrefixOf [] then some 0 else none
  | x :: rest =>
    if pat.isPrefixOf (x :: rest) then some 0
    else (pyFind pat rest).map fun n => n + 1

/-- The literal `"http://"` scanned for in `Proxy.separate_url_and_prefix`. -/
def schemeTag : List Char := "http://".toList

/-- The literal `"Host:"` tested with `startswith` in `Proxy.prepare_request`. -/
def hostTag : List Char := "Host:".toList

/-- The literal `"Host: "` that leads the rewritten Host header line. -/
def hostHdr : List Char := "Host: ".toList

/-- `Proxy.separate_url_and_prefix` (src/proxy.py lines 174-200): strip the
configured prefix when present, then one leading slash, then everything up
to and including the first occurrence of `http://`, then split at the
first remaining `/` into `(domain, path)`, defaulting the path to `"/"`. -/
def separate_url_and_prefix (url pfx : List Char) : List Char × List Char :=
  let temp1 := if pfx.isPrefixOf url then url.drop pfx.length else url
  let temp2 := if ['/'].isPrefixOf temp1 then temp1.drop 1 else temp1
  let temp3 :=
    match pyFind schemeTag temp2 with
    | some i => temp2.drop (i + 7)
    | none => temp2
  match pyFind ['/'] temp3 with
  | some j => (temp3.take j, temp3.drop j)
  | none => (temp3, ['/'])

/-- Modelled from the spec: pipeline stage "strip the configured prefix
when the token begins with it". -/
def stripPfxStage (url pfx : List Char) : List Char :=
  if pfx.isPrefixOf url then url.drop pfx.length else url

/-- Modelled from the spec: pipeline stage "strip one leading `/` if
present". -/
def stripSlashStage (t : List Char) : List Char :=
  if ['/'].isPrefixOf t then t.drop 1 else t

/-- Modelled from the spec: pipeline stage "locate and strip an embedded
`http://` scheme marker wherever it occurs". -/
def stripSchemeStage (t : List Char) : List Char :=
  match pyFind schemeTag t with
  | some i => t.drop (i + 7)
  | none => t

/-- Modelled from the spec: pipeline stage "split at the first `/`
encountered into `(host, path)`; if no `/` is found, `path = "/"`". -/
def splitHostPathStage (t : List Char) : List Char × List Char :=
  match pyFind ['/'] t with
  | some j => (t.take j, t.drop j)
  | none => (t, ['/'])

/-- `Proxy.get_url` (src/proxy.py lines 159-172): decode, take the first
`'\n'`-separated line, split it on spaces and return token `[1]`; a first
line with fewer than two space-separated tokens raises `IndexError`. -/
def get_url (request : List Char) : Except PyExc (List Char) :=
  let firstLine := (splitChar '\n' request).headD []
  match (splitChar ' ' firstLine).get? 1 with
  | none => Except.error PyExc.indexError
  | some url => Except.ok url

/-- The `for line in decoded_request.split("\r\n")` loop body of
`Proxy.prepare_request` (src/proxy.py lines 217-232), with the two
one-shot flags `rewritten_url` and `rewritten_host` and the accumulated
`new_request`.  The first iteration rebuilds the request line from tokens
`[0]` and `[2]` of the line (raising `IndexError` when token `[2]` is
missing) and the new path; the first later line starting with `Host:` is
replaced by `Host: <address>`; every other line is appended verbatim
after `"\r\n"`. -/
def prepLoop (address path : List Char) :
    List (List Char) → Bool → Bool → List Char → Except PyExc (List Char)
  | [], _, _, acc => Except.ok acc
  | line :: rest, rwUrl, rwHost, acc =>
    if rwUrl = false then
      match (splitChar ' ' line).get? 2 with
      | none => Except.error PyExc.indexError
      | some v =>
          prepLoop address path rest true rwHost
            (((splitChar ' ' line).headD []) ++ ' ' :: (path ++ ' ' :: v))
    else if rwHost = false ∧ hostTag.isPrefixOf line = true then
      prepLoop address path rest rwUrl true
        (acc ++ '\r' :: '\n' :: (hostHdr ++ address))
    else
      prepLoop address path rest rwUrl rwHost
        (acc ++ '\r' :: '\n' :: line)

/-- `Proxy.prepare_request` (src/proxy.py lines 202-233). -/
def prepare_request (request address path : List Char) :
    Except PyExc (List Char) :=
  prepLoop address path (splitCRLF request) false false []

/-- Tail of the rewrite loop once the request line has been consumed
(`rewritten_url = True`): the `"\r\n"`-prefixed contributions of the
remaining lines, with the first `Host:` line replaced while
`rwHost = false`. -/
def hostRest (address : List Char) : List (List Char) → Bool → List Char
  | [], _ => []
  | line :: rest, rwHost =>
    if rwHost = false ∧ hostTag.isPrefixOf line = true then
      '\r' :: '\n' :: (hostHdr ++ address ++ hostRest address rest true)
    else
      '\r' :: '\n' :: (line ++ hostRest address rest rwHost)

/-- Join lines by prefixing each with `"\r\n"` (shape of the untouched
tail of a rewritten request). -/
def joinTail : List (List Char) → List Char
  | [] => []
  | l :: ls => '\r' :: '\n' :: (l ++ joinTail ls)

/-- Observable outcome of `Proxy.client_request` (src/proxy.py lines
96-113) for one request: either the prefix gate fails and nothing further
happens (no upstream connection, no data to the client), or
`Proxy.proxy_request` is invoked with the resolved address, port 80 and
the rewritten request, or an uncaught exception propagates out of the
handler. -/
inductive ClientResult
  | rejected
  | proxied (address : List Char) (port : Nat) (request : List Char)
  | fault (e : PyExc)
deriving DecidableEq

/-- `Proxy.client_request` (src/proxy.py lines 96-113): extract the URL,
test `url.startswith(self.prefix)`, and on success rewrite and proxy the
request; it installs no exception handler of its own. -/
def client_request (pfx request : List Char) : ClientResult :=
  match get_url request with
  | Except.error e => ClientResult.fault e
  | Except.ok url =>
    if pfx.isPrefixOf url then
      let ap := separate_url_and_prefix url pfx
      match prepare_request request ap.1 ap.2 with
      | Except.error e => ClientResult.fault e
      | Except.ok req => ClientResult.proxied ap.1 80 req
    else ClientResult.rejected

/-- The `except` clauses of `Proxy._accept` (src/proxy.py lines 88-94):
only `KeyboardInterrupt` and `socket.error` are caught around the call to
`client_request`; any other exception escapes the accept loop. -/
def acceptCatches : PyExc → Bool
  | PyExc.keyboardInterrupt => true
  | PyExc.socketError => true
  | PyExc.indexError => false

/-- Default `prefix` of the `Proxy` constructor (src/proxy.py line 6). -/
def initDefaultPfx : List Char := "".toList

/-- Default `--prefix` of the command line interface (src/proxy.py line 249). -/
def cliDefaultPfx : List Char := "/proxy/".toList

/-- One event observed by `recv` on the upstream socket inside
`Proxy.proxy_request`: either a chunk of data (possibly empty, meaning
graceful close) or the 2-second receive timeout elapsing
(`socket.error` with message `"timed out"`). -/
inductive RecvEvent
  | data (b : List Nat)
  | timedOut
deriving DecidableEq

/-- How the relay loop of `Proxy.proxy_request` ended. -/
inductive RelayEnd
  | gracefulClose
  | timeoutClose
  | streamEnded
deriving DecidableEq

/-- The `while True` relay loop of `Proxy.proxy_request` (src/proxy.py
lines 137-157): read from upstream; a zero-length read breaks the loop
(graceful close); otherwise the chunk is sent to the client unmodified and
the loop repeats; a timeout is caught and also ends the loop.  Returns the
chunks written to the client, in order, and how the loop ended. -/
def relay_loop : List RecvEvent → List (List Nat) × RelayEnd
  | [] => ([], RelayEnd.streamEnded)
  | RecvEvent.timedOut :: _ => ([], RelayEnd.timeoutClose)
  | RecvEvent.data b :: rest =>
    if b.length = 0 then ([], RelayEnd.gracefulClose)
    else
      let r := relay_loop rest
      (b :: r.1, r.2)

end ProxyModel

namespace ProxyModel

/-- The sequential string mutation of `Proxy.separate_url_and_prefix`
equals the four-stage pipeline described by the spec. -/
theorem sep_stages_eq (url pfx : List Char) :
    separate_url_and_prefix url pfx =
      splitHostPathStage (stripSchemeStage (stripSlashStage (stripPfxStage url pfx))) := rfl

/-- C3: the transforms are applied in the fixed order prefix-strip, then
one leading slash, then scheme marker (scanned anywhere), then host/path
split; on request-target `/proxy/http://example.com/a/b` with prefix
`/proxy/` the result is host `example.com`, path `/a/b`. -/
theorem c3_transform_order :
    (∀ url pfx : List Char,
      separate_url_and_prefix url pfx =
        splitHostPathStage (stripSchemeStage (stripSlashStage (stripPfxStage url pfx)))) ∧
      separate_url_and_prefix ("/proxy/http://example.com/a/b".toList) ("/proxy/".toList) =
        ("example.com".toList, "/a/b".toList) :=
  ⟨fun url pfx => sep_stages_eq url pfx, by decide⟩

/-- C1: whenever the extracted request-target does not begin with the
configured prefix, `client_request` rejects the request: the outcome is
`rejected` — no upstream connection, no rewritten request forwarded, no
data to the client. -/
theorem c1_gate_rejects (pfx request url : List Char)
    (hurl : get_url request = Except.ok url)
    (hpfx : pfx.isPrefixOf url = false) :
    client_request pfx request = ClientResult.rejected := by
  simp [client_request, hurl, hpfx]

/-- C1 witness: a concrete request whose target `/other/x` lacks the
prefix `/proxy/` is rejected. -/
theorem c1_gate_rejects_witness :
    get_url ("GET /other/x HTTP/1.1".toList) = Except.ok ("/other/x".toList) ∧
      ("/proxy/".toList).isPrefixOf ("/other/x".toList) = false ∧
      client_request ("/proxy/".toList) ("GET /other/x HTTP/1.1".toList) =
        ClientResult.rejected :=
  ⟨rfl, by decide,
    c1_gate_rejects ("/proxy/".toList) ("GET /other/x HTTP/1.1".toList)
      ("/other/x".toList) rfl (by decide)⟩

/-- C2 counterexample: on the empty raw request, URL extraction raises
`IndexError` and `client_request` faults instead of rejecting the request
and returning normally. -/
theorem c2_fault_counterexample :
    client_request ("/proxy/".toList) [] = ClientResult.fault PyExc.indexError ∧
      ClientResult.fault PyExc.indexError ≠ ClientResult.rejected := by
  constructor
  · decide
  · decide

/-- The only exception `get_url` raises is `IndexError` (from token
`[1]` of the first line). -/
theorem get_url_error_eq (request : List Char) (e : PyExc)
    (h : get_url request = Except.error e) : e = PyExc.indexError := by
  simp only [get_url] at h
  rcases hm : (splitChar ' ' ((splitChar '\n' request).headD [])).get? 1 with _ | u
  · rw [hm] at h
    simp at h
    exact h.symm
  · rw [hm] at h
    simp at h

/-- Unfolding of the rewrite loop on its first iteration
(`rewritten_url` still unset). -/
theorem prepLoop_cons_false_eq (address path line : List Char)
    (rest : List (List Char)) (rwHost : Bool) (acc : List Char) :
    prepLoop address path (line :: rest) false rwHost acc =
      match (splitChar ' ' line).get? 2 with
      | none => Except.error PyExc.indexError
      | some v =>
          prepLoop address path rest true rwHost
            (((splitChar ' ' line).headD []) ++ ' ' :: (path ++ ' ' :: v)) := rfl

/-- Unfolding of the rewrite loop on a later iteration
(`rewritten_url` already set). -/
theorem prepLoop_cons_true_eq (address path line : List Char)
    (rest : List (List Char)) (rwHost : Bool) (acc : List Char) :
    prepLoop address path (line :: rest) true rwHost acc =
      if rwHost = false ∧ hostTag.isPrefixOf line = true then
        prepLoop address path rest true true
          (acc ++ '\r' :: '\n' :: (hostHdr ++ address))
      else
        prepLoop address path rest true rwHost
          (acc ++ '\r' :: '\n' :: line) := rfl

/-- The only exception the rewrite loop raises is `IndexError` (from
token `[2]` of the first line). -/
theorem prepLoop_error_eq (address path : List Char) :
    ∀ (lines : List (List Char)) (rwUrl rwHost : Bool) (acc : List Char) (e : PyExc),
      prepLoop address path lines rwUrl rwHost acc = Except.error e →
      e = PyExc.indexError := by
  intro lines
  induction lines with
  | nil =>
      intro rwUrl rwHost acc e h
      simp [prepLoop] at h
  | cons line rest ih =>
      intro rwUrl rwHost acc e h
      cases rwUrl with
      | false =>
          rw [prepLoop_cons_false_eq] at h
          rcases hm : (splitChar ' ' line).get? 2 with _ | v
          · rw [hm] at h
            exact (Except.error.inj h).symm
          · rw [hm] at h
            exact ih true rwHost _ e h
      | true =>
          rw [prepLoop_cons_true_eq] at h
          by_cases hh : rwHost = false ∧ hostTag.isPrefixOf line = true
          · rw [if_pos hh] at h
            exact ih true true _ e h
          · rw [if_neg hh] at h
            exact ih true rwHost _ e h

/-- The only exception `prepare_request` raises is `IndexError`. -/
theorem prepare_request_error_eq (request address path : List Char) (e : PyExc)
    (h : prepare_request request address path = Except.error e) :
    e = PyExc.indexError :=
  prepLoop_error_eq address path (splitCRLF request) false false [] e h

/-- C2 amended: a fault in URL extraction (`get_url` raising on the
request) or in rewriting (`prepare_request` raising after the target
passed the gate) is not handled inside the request path: `client_request`
propagates it as a fault outcome, and the `_accept` loop's handlers
(socket errors and keyboard interrupts only) do not catch it, so it
escapes the request-handling path. -/
theorem c2_fault_propagates (pfx request : List Char) (e : PyExc)
    (h : get_url request = Except.error e ∨
      ∃ url, get_url request = Except.ok url ∧ pfx.isPrefixOf url = true ∧
        prepare_request request ( separate_url_and_prefix url pfx).1
          ( separate_url_and_prefix url pfx).2 = Except.error e) :
    client_request pfx request = ClientResult.fault e ∧ acceptCatches e = false := by
  rcases h with h | ⟨url, hu, hp, hprep⟩
  · refine ⟨by simp [client_request, h], ?_⟩
    rw [get_url_error_eq request e h]
    rfl
  · refine ⟨?_, ?_⟩
    · simp [client_request, hu, hp, hprep]
    · rw [prepare_request_error_eq _ _ _ _ hprep]
      rfl

/-- C2 amended witness: both fault sources are exercised concretely.  The
empty request faults with `IndexError` inside `get_url`; the request
`GET /proxy/a\nHTTP/1.0\r\nX: y` passes extraction and the prefix gate
(its first newline-line is `GET /proxy/a`) but faults with `IndexError`
inside `prepare_request` (its first CRLF-line has only two space-separated
tokens).  Neither exception is caught by `_accept`. -/
theorem c2_fault_propagates_witness :
    (client_request ("/proxy/".toList) [] = ClientResult.fault PyExc.indexError ∧
        acceptCatches PyExc.indexError = false) ∧
      (client_request ("/proxy/".toList) ("GET /proxy/a\nHTTP/1.0\r\nX: y".toList) =
          ClientResult.fault PyExc.indexError ∧
        acceptCatches PyExc.indexError = false) :=
  ⟨c2_fault_propagates ("/proxy/".toList) [] PyExc.indexError (Or.inl rfl),
    c2_fault_propagates ("/proxy/".toList) ("GET /proxy/a\nHTTP/1.0\r\nX: y".toList)
      PyExc.indexError
      (Or.inr ⟨("/proxy/a".toList), rfl, by decide, rfl⟩)⟩

/-- C10: with the `Proxy` constructor's default empty prefix, the gate
accepts every request-target (every string begins with the empty string),
so `client_request` never returns `rejected`. -/
theorem c10_empty_default_never_rejects :
    (∀ request : List Char,
        client_request initDefaultPfx request ≠ ClientResult.rejected) ∧
      ∀ url : List Char, initDefaultPfx.isPrefixOf url = true := by
  have h0 : initDefaultPfx = [] := by decide
  have hp : ∀ url : List Char, initDefaultPfx.isPrefixOf url = true := by
    intro url
    rw [h0]
    simp [List.isPrefixOf]
  constructor
  · intro request
    unfold client_request
    rcases hget : get_url request with e | url
    · simp [hget]
    · simp only [hget, hp url, if_true]
      rcases prepare_request request ( separate_url_and_prefix url initDefaultPfx).1
          ( separate_url_and_prefix url initDefaultPfx).2 with e | r <;> simp
  · exact hp

/-- If `pyFind` reports no occurrence of the one-character pattern `[c]`,
then `c` does not occur in the text. -/
theorem pyFind_singleton_none (c : Char) (s : List Char)
    (h : pyFind [c] s = none) : c ∉ s := by
  induction s with
  | nil => simp
  | cons x rest ih =>
      simp only [pyFind] at h
      by_cases hx : [c].isPrefixOf (x :: rest) = true
      · rw [if_pos hx] at h
        simp at h
      · rw [if_neg hx] at h
        have hr : pyFind [c] rest = none := by
          rcases hm : pyFind [c] rest with _ | n
          · rfl
          · rw [hm] at h
            simp at h
        have hcx : ¬ c = x := by
          simpa [List.isPrefixOf] using hx
        intro hmem
        rcases List.mem_cons.mp hmem with h1 | h2
        · exact hcx h1
        · exact ih hr h2

/-- If `pyFind` locates the first occurrence of the one-character pattern
`[c]` at index `j`, then `c` does not occur before `j` and the text from
`j` on starts with `c`. -/
theorem pyFind_singleton_some (c : Char) (s : List Char) (j : Nat)
    (h : pyFind [c] s = some j) :
    c ∉ s.take j ∧ (s.drop j).head? = some c := by
  induction s generalizing j with
  | nil => simp [pyFind] at h
  | cons x rest ih =>
      simp only [pyFind] at h
      by_cases hx : [c].isPrefixOf (x :: rest) = true
      · rw [if_pos hx] at h
        have hj : j = 0 := by simpa using h.symm
        subst hj
        have hcx : c = x := by
          simpa [List.isPrefixOf] using hx
        simp [hcx]
      · rw [if_neg hx] at h
        rcases hm : pyFind [c] rest with _ | n
        · rw [hm] at h
          simp at h
        · rw [hm] at h
          simp at h
          subst h
          have hcx : ¬ c = x := by
            simpa [List.isPrefixOf] using hx
          obtain ⟨h1, h2⟩ := ih n hm
          refine ⟨?_, by simpa using h2⟩
          intro hmem
          simp only [List.take_succ_cons] at hmem
          rcases List.mem_cons.mp hmem with e | e
          · exact hcx e
          · exact h1 e

/-- Any list that starts with the `http://` marker contains a slash. -/
theorem slash_mem_of_schemeTag_isPrefix (h : List Char)
    (hp : schemeTag <+: h) : '/' ∈ h := by
  rcases hp with ⟨t, ht⟩
  rw [← ht]
  exact List.mem_append_left t (by decide)

/-- C4: for every url token of the form `pfx ++ host ++ path`, the pair
returned by `separate_url_and_prefix` has a host with no `/` anywhere
(hence no leading `/`) and no leading `http://`, a path beginning with
`/`, and a path of exactly `"/"` whenever the stripped remainder contains
no `/`. -/
theorem c4_host_path_invariants (url pfx host0 path0 : List Char)
    (_hform : url = pfx ++ host0 ++ path0) :
    '/' ∉ ( separate_url_and_prefix url pfx).1 ∧
      ¬ (schemeTag <+: ( separate_url_and_prefix url pfx).1) ∧
      ( separate_url_and_prefix url pfx).2.head? = some '/' ∧
      ('/' ∉ stripSchemeStage (stripSlashStage (stripPfxStage url pfx)) →
        ( separate_url_and_prefix url pfx).2 = ['/']) := by
  clear _hform
  rw [sep_stages_eq]
  set t := stripSchemeStage (stripSlashStage (stripPfxStage url pfx)) with ht
  rcases hf : pyFind ['/'] t with _ | j
  · have hnot := pyFind_singleton_none '/' t hf
    have hfst : (splitHostPathStage t).1 = t := by
      simp [splitHostPathStage, hf]
    have hsnd : (splitHostPathStage t).2 = ['/'] := by
      simp [splitHostPathStage, hf]
    refine ⟨?_, ?_, ?_, ?_⟩
    · rw [hfst]
      exact hnot
    · rw [hfst]
      intro hpre
      exact hnot (slash_mem_of_schemeTag_isPrefix t hpre)
    · rw [hsnd]
      rfl
    · intro _
      exact hsnd
  · obtain ⟨h1, h2⟩ := pyFind_singleton_some '/' t j hf
    have hfst : (splitHostPathStage t).1 = t.take j := by
      simp [splitHostPathStage, hf]
    have hsnd : (splitHostPathStage t).2 = t.drop j := by
      simp [splitHostPathStage, hf]
    have hmem : '/' ∈ t := by
      have hsplit := List.take_append_drop j t
      rcases hd : t.drop j with _ | ⟨a, rest⟩
      · rw [hd] at h2
        simp at h2
      · rw [hd] at h2
        simp only [List.head?_cons, Option.some.injEq] at h2
        rw [← hsplit, hd, h2]
        exact List.mem_append_right _ (List.mem_cons_self _ _)
    refine ⟨?_, ?_, ?_, ?_⟩
    · rw [hfst]
      exact h1
    · rw [hfst]
      intro hpre
      exact h1 (slash_mem_of_schemeTag_isPrefix _ hpre)
    · rw [hsnd]
      exact h2
    · intro hno
      exact absurd hmem hno

/-- C4 witness: a concrete in-form token obeys the invariants. -/
theorem c4_host_path_invariants_witness :
    ("/proxy/example.com/index.html".toList =
        ("/proxy/".toList) ++ ("example.com".toList) ++ ("/index.html".toList)) ∧
      ('/' ∉ ( separate_url_and_prefix ("/proxy/example.com/index.html".toList)
          ("/proxy/".toList)).1 ∧
        ¬ (schemeTag <+: ( separate_url_and_prefix ("/proxy/example.com/index.html".toList)
            ("/proxy/".toList)).1) ∧
        ( separate_url_and_prefix ("/proxy/example.com/index.html".toList)
            ("/proxy/".toList)).2.head? = some '/' ∧
        ('/' ∉ stripSchemeStage (stripSlashStage (stripPfxStage
            ("/proxy/example.com/index.html".toList) ("/proxy/".toList))) →
          ( separate_url_and_prefix ("/proxy/example.com/index.html".toList)
              ("/proxy/".toList)).2 = ['/'])) :=
  ⟨by decide,
    c4_host_path_invariants ("/proxy/example.com/index.html".toList) ("/proxy/".toList)
      ("example.com".toList) ("/index.html".toList) (by decide)⟩

/-- C9: when the `http://` marker first occurs at index `i` of the
remainder obtained after prefix and slash stripping, the resolved host
and path are computed purely from the text after index `i + 7`: the whole
remainder up to and including the marker is discarded. -/
theorem c9_marker_discards_head (url pfx : List Char) (i : Nat)
    (h : pyFind schemeTag (stripSlashStage (stripPfxStage url pfx)) = some i) :
    separate_url_and_prefix url pfx =
      splitHostPathStage ((stripSlashStage (stripPfxStage url pfx)).drop (i + 7)) := by
  rw [sep_stages_eq]
  unfold stripSchemeStage
  rw [h]

/-- C9 witness: in `/proxy/realhost/http://evil` the marker sits inside
what would otherwise be the path, and the resolved host becomes `evil`
(the text after the marker), not `realhost`. -/
theorem c9_marker_discards_head_witness :
    pyFind schemeTag (stripSlashStage (stripPfxStage
        ("/proxy/realhost/http://evil".toList) ("/proxy/".toList))) = some 9 ∧
      separate_url_and_prefix ("/proxy/realhost/http://evil".toList) ("/proxy/".toList) =
        splitHostPathStage ((stripSlashStage (stripPfxStage
          ("/proxy/realhost/http://evil".toList) ("/proxy/".toList))).drop (9 + 7)) ∧
      separate_url_and_prefix ("/proxy/realhost/http://evil".toList) ("/proxy/".toList) =
        ("evil".toList, "/".toList) :=
  ⟨by decide,
    c9_marker_discards_head ("/proxy/realhost/http://evil".toList) ("/proxy/".toList) 9
      (by decide),
    by decide⟩

/-- One iteration of the relay loop on a non-empty chunk: the chunk is
sent to the client and the loop continues on the remaining events. -/
theorem relay_loop_data_ne (b : List Nat) (evs : List RecvEvent)
    (hb : ¬ b.length = 0) :
    relay_loop (RecvEvent.data b :: evs) =
      (b :: (relay_loop evs).1, (relay_loop evs).2) := by
  simp [relay_loop, hb]

/-- C8: when the upstream delivers `N` non-empty chunks and then a
zero-length read (graceful close), the relay loop writes exactly those
chunks to the client, unmodified and in order, and terminates at the
zero-length read — not by the timeout. -/
theorem c8_relay_exact (chunks : List (List Nat))
    (h : ∀ c ∈ chunks, c ≠ []) :
    relay_loop (chunks.map RecvEvent.data ++ [RecvEvent.data []]) =
      (chunks, RelayEnd.gracefulClose) := by
  induction chunks with
  | nil => rfl
  | cons c cs ih =>
      have hc : c ≠ [] := h c (List.mem_cons_self c cs)
      have hlen : ¬ c.length = 0 := by
        simpa using hc
      have ih' := ih (fun d hd => h d (List.mem_cons_of_mem c hd))
      simp only [List.map_cons, List.cons_append]
      rw [relay_loop_data_ne c (cs.map RecvEvent.data ++ [RecvEvent.data []]) hlen, ih']

/-- C8 witness: two concrete chunks followed by a graceful close are
relayed verbatim. -/
theorem c8_relay_exact_witness :
    relay_loop ([[1], [2, 3]].map RecvEvent.data ++ [RecvEvent.data []]) =
      ([[1], [2, 3]], RelayEnd.gracefulClose) :=
  c8_relay_exact [[1], [2, 3]] (by decide)

/-- Text with no CRLF pair is returned by `splitCRLF` as a single line. -/
theorem splitCRLF_of_no (s : List Char) (h : hasCRLF s = false) :
    splitCRLF s = [s] := by
  induction s with
  | nil => rfl
  | cons x tail ih =>
      cases tail with
      | nil => rfl
      | cons y rest =>
          simp only [hasCRLF] at h
          by_cases hc : x = '\r' ∧ y = '\n'
          · rw [if_pos hc] at h
            simp at h
          · rw [if_neg hc] at h
            simp only [splitCRLF]
            rw [if_neg hc, ih h]
            rfl

/-- Splitting text of the shape `a ++ CRLF ++ b`, where `a` holds no CRLF
pair, yields `a` followed by the lines of `b`. -/
theorem splitCRLF_append_crlf (a b : List Char) (h : hasCRLF a = false) :
    splitCRLF (a ++ '\r' :: '\n' :: b) = a :: splitCRLF b := by
  induction a with
  | nil =>
      simp [splitCRLF]
  | cons x tail ih =>
      cases tail with
      | nil =>
          show splitCRLF (x :: '\r' :: '\n' :: b) = [x] :: splitCRLF b
          simp [splitCRLF, consHead]
      | cons y rest =>
          simp only [hasCRLF] at h
          by_cases hc : x = '\r' ∧ y = '\n'
          · rw [if_pos hc] at h
            simp at h
          · rw [if_neg hc] at h
            have ihr := ih h
            simp only [List.cons_append] at ihr ⊢
            simp only [splitCRLF]
            rw [if_neg hc, ihr]
            rfl

/-- `splitCRLF` never returns the empty list of lines. -/
theorem splitCRLF_ne_nil (s : List Char) : splitCRLF s ≠ [] := by
  cases s with
  | nil => simp [splitCRLF]
  | cons x tail =>
      cases tail with
      | nil => simp [splitCRLF]
      | cons y rest =>
          simp only [splitCRLF]
          by_cases hc : x = '\r' ∧ y = '\n'
          · rw [if_pos hc]
            simp
          · rw [if_neg hc]
            rcases hsp : splitCRLF (y :: rest) with _ | ⟨h0, t0⟩ <;> simp [consHead]

/-- The first line produced by `splitCRLF` on a non-empty text is either
empty or starts with the text's first character. -/
theorem splitCRLF_head_shape (y : Char) (rest h0 : List Char)
    (t0 : List (List Char)) (h : splitCRLF (y :: rest) = h0 :: t0) :
    h0 = [] ∨ ∃ h1, h0 = y :: h1 := by
  cases rest with
  | nil =>
      simp only [splitCRLF, List.cons.injEq] at h
      right
      exact ⟨[], h.1.symm⟩
  | cons z rest2 =>
      simp only [splitCRLF] at h
      by_cases hc : y = '\r' ∧ z = '\n'
      · rw [if_pos hc] at h
        left
        exact (List.cons.injEq _ _ _ _ ▸ h).1.symm
      · rw [if_neg hc] at h
        rcases hsp : splitCRLF (z :: rest2) with _ | ⟨g, gs⟩
        · exact absurd hsp (splitCRLF_ne_nil _)
        · rw [hsp] at h
          simp only [consHead, List.cons.injEq] at h
          right
          exact ⟨g, h.1.symm⟩

/-- Every line produced by `splitCRLF` is free of CRLF pairs. -/
theorem hasCRLF_of_mem_splitCRLF (s : List Char) :
    ∀ l ∈ splitCRLF s, hasCRLF l = false := by
  induction s using splitCRLF.induct with
  | case1 =>
      intro l hl
      simp [splitCRLF] at hl
      subst hl
      rfl
  | case2 x =>
      intro l hl
      simp [splitCRLF] at hl
      subst hl
      rfl
  | case3 x y rest hc ih =>
      intro l hl
      simp only [splitCRLF] at hl
      rw [if_pos hc] at hl
      rcases List.mem_cons.mp hl with e | e
      · subst e
        rfl
      · exact ih l e
  | case4 x y rest hc ih =>
      intro l hl
      simp only [splitCRLF] at hl
      rw [if_neg hc] at hl
      rcases hsp : splitCRLF (y :: rest) with _ | ⟨h0, t0⟩
      · exact absurd hsp (splitCRLF_ne_nil _)
      · rw [hsp] at hl
        simp only [consHead] at hl
        rcases List.mem_cons.mp hl with e | e
        · subst e
          have hh0 : hasCRLF h0 = false := by
            refine ih h0 ?_
            rw [hsp]
            exact List.mem_cons_self _ _
          rcases splitCRLF_head_shape y rest h0 t0 hsp with e0 | ⟨h1, e1⟩
          · subst e0
            rfl
          · subst e1
            simp only [hasCRLF]
            rw [if_neg hc]
            exact hh0
        · refine ih l ?_
          rw [hsp]
          exact List.mem_cons_of_mem _ e

/-- A space-separated concatenation holds no CRLF pair when neither part
does (the junction cannot form one because the joiner is a space). -/
theorem hasCRLF_space_cons (b : List Char) : hasCRLF (' ' :: b) = hasCRLF b := by
  cases b with
  | nil => rfl
  | cons c r => simp [hasCRLF]

/-- Appending `' ' :: b` to CRLF-free `a` stays CRLF-free when `b` is. -/
theorem hasCRLF_append_space (a b : List Char)
    (ha : hasCRLF a = false) (hb : hasCRLF b = false) :
    hasCRLF (a ++ ' ' :: b) = false := by
  induction a with
  | nil =>
      rw [List.nil_append, hasCRLF_space_cons]
      exact hb
  | cons x tail ih =>
      cases tail with
      | nil =>
          show hasCRLF (x :: ' ' :: b) = false
          simp only [hasCRLF]
          rw [if_neg (by simp), hasCRLF_space_cons]
          exact hb
      | cons y rest =>
          simp only [hasCRLF] at ha
          by_cases hc : x = '\r' ∧ y = '\n'
          · rw [if_pos hc] at ha
            simp at ha
          · rw [if_neg hc] at ha
            simp only [List.cons_append, hasCRLF]
            rw [if_neg hc]
            exact ih ha

/-- The text contains a CRLF pair exactly when `['\r', '\n']` occurs in it
as a contiguous infix. -/
theorem hasCRLF_iff_crlf_occurs (s : List Char) :
    hasCRLF s = true ↔ ['\r', '\n'] <:+: s := by
  induction s with
  | nil =>
      constructor
      · intro h
        simp [hasCRLF] at h
      · rintro ⟨u, v, huv⟩
        have hlen := congrArg List.length huv
        simp at hlen
  | cons x tail ih =>
      cases tail with
      | nil =>
          constructor
          · intro h
            simp [hasCRLF] at h
          · rintro ⟨u, v, huv⟩
            have hlen := congrArg List.length huv
            simp [List.length_append] at hlen
            omega
      | cons y rest =>
          by_cases hc : x = '\r' ∧ y = '\n'
          · constructor
            · intro _
              exact ⟨[], rest, by simp [hc.1, hc.2]⟩
            · intro _
              simp only [hasCRLF]
              rw [if_pos hc]
          · have hstep : hasCRLF (x :: y :: rest) = hasCRLF (y :: rest) := by
              simp only [hasCRLF]
              rw [if_neg hc]
            rw [hstep, ih]
            constructor
            · exact List.infix_cons
            · intro hin
              rcases hin with ⟨u, v, huv⟩
              cases u with
              | nil =>
                  simp only [List.nil_append, List.cons_append, List.cons.injEq] at huv
                  exact absurd ⟨huv.1.symm, huv.2.1.symm⟩ hc
              | cons a u' =>
                  simp only [List.cons_append, List.cons.injEq] at huv
                  exact ⟨u', v, huv.2⟩

/-- CRLF-freedom is inherited by contiguous infixes. -/
theorem hasCRLF_false_of_sub (l s : List Char) (hin : l <:+: s)
    (hs : hasCRLF s = false) : hasCRLF l = false := by
  by_contra hl
  have hl' : hasCRLF l = true := by
    simpa using hl
  have : hasCRLF s = true :=
    (hasCRLF_iff_crlf_occurs s).mpr (((hasCRLF_iff_crlf_occurs l).mp hl').trans hin)
  rw [this] at hs
  cases hs

/-- The first component of `splitChar` is a prefix of the text. -/
theorem splitChar_head_pfx (c : Char) (s : List Char) :
    ∃ h t, splitChar c s = h :: t ∧ h <+: s := by
  induction s with
  | nil => exact ⟨[], [], rfl, List.nil_prefix⟩
  | cons x rest ih =>
      by_cases hx : x = c
      · refine ⟨[], splitChar c rest, ?_, List.nil_prefix⟩
        simp [splitChar, hx]
      · obtain ⟨h, t, heq, hp⟩ := ih
        refine ⟨x :: h, t, ?_, ?_⟩
        · simp [splitChar, hx, heq]
        · rcases hp with ⟨u, hu⟩
          exact ⟨u, by rw [List.cons_append, hu]⟩

/-- Every component of `splitChar` is a contiguous infix of the text. -/
theorem mem_splitChar_sub (c : Char) (s : List Char) :
    ∀ l ∈ splitChar c s, l <:+: s := by
  induction s with
  | nil =>
      intro l hl
      simp [splitChar] at hl
      subst hl
      exact ⟨[], [], rfl⟩
  | cons x rest ih =>
      intro l hl
      by_cases hx : x = c
      · rw [show splitChar c (x :: rest) = [] :: splitChar c rest from by
            simp [splitChar, hx]] at hl
        rcases List.mem_cons.mp hl with e | e
        · subst e
          exact ⟨[], x :: rest, rfl⟩
        · exact List.infix_cons (ih l e)
      · obtain ⟨h, t, heq, hp⟩ := splitChar_head_pfx c rest
        rw [show splitChar c (x :: rest) = (x :: h) :: t from by
            simp [splitChar, hx, heq]] at hl
        rcases List.mem_cons.mp hl with e | e
        · subst e
          rcases hp with ⟨u, hu⟩
          exact ⟨[], u, by simp [hu]⟩
        · have hmem : l ∈ splitChar c rest := by
            rw [heq]
            exact List.mem_cons_of_mem _ e
          exact List.infix_cons (ih l hmem)

/-- The rebuilt request line `m ++ " " ++ path ++ " " ++ v` is CRLF-free
whenever its source line and the new path are. -/
theorem reqline_hasCRLF_false (line0 path m t v : List Char)
    (hline : splitChar ' ' line0 = [m, t, v])
    (hline0 : hasCRLF line0 = false) (hpath : hasCRLF path = false) :
    hasCRLF (m ++ ' ' :: (path ++ ' ' :: v)) = false := by
  have hmem_m : m ∈ splitChar ' ' line0 := by
    rw [hline]
    exact List.mem_cons_self _ _
  have hmem_v : v ∈ splitChar ' ' line0 := by
    rw [hline]
    simp
  have hm : hasCRLF m = false :=
    hasCRLF_false_of_sub _ _ (mem_splitChar_sub ' ' line0 m hmem_m) hline0
  have hv : hasCRLF v = false :=
    hasCRLF_false_of_sub _ _ (mem_splitChar_sub ' ' line0 v hmem_v) hline0
  exact hasCRLF_append_space _ _ hm (hasCRLF_append_space _ _ hpath hv)

/-- Joining lines with `joinTail` and re-splitting recovers them, given
every piece is CRLF-free. -/
theorem splitCRLF_joinTail (ls : List (List Char)) :
    ∀ a : List Char, hasCRLF a = false → (∀ l ∈ ls, hasCRLF l = false) →
      splitCRLF (a ++ joinTail ls) = a :: ls := by
  induction ls with
  | nil =>
      intro a ha _
      simp only [joinTail, List.append_nil]
      rw [splitCRLF_of_no a ha]
  | cons l ls' ih =>
      intro a ha hls
      simp only [joinTail]
      rw [splitCRLF_append_crlf a (l ++ joinTail ls') ha]
      rw [ih l (hls l (List.mem_cons_self _ _))
        (fun l' hl' => hls l' (List.mem_cons_of_mem _ hl'))]

/-- Once the request line has been rewritten, the loop of
`prepare_request` appends exactly `hostRest` after the accumulator. -/
theorem prepLoop_true (address path : List Char) :
    ∀ (lines : List (List Char)) (rwHost : Bool) (acc : List Char),
      prepLoop address path lines true rwHost acc =
        Except.ok (acc ++ hostRest address lines rwHost) := by
  intro lines
  induction lines with
  | nil =>
      intro rwHost acc
      simp [prepLoop, hostRest]
  | cons line rest ih =>
      intro rwHost acc
      have hnotfalse : ¬ ((true : Bool) = false) := by
        simp
      by_cases hh : rwHost = false ∧ hostTag.isPrefixOf line = true
      · have e1 : prepLoop address path (line :: rest) true rwHost acc =
            prepLoop address path rest true true
              (acc ++ '\r' :: '\n' :: (hostHdr ++ address)) := by
          simp only [prepLoop]
          rw [if_neg hnotfalse, if_pos hh]
        have e2 : hostRest address (line :: rest) rwHost =
            '\r' :: '\n' :: (hostHdr ++ address ++ hostRest address rest true) := by
          simp only [hostRest]
          rw [if_pos hh]
        rw [e1, ih true _, e2]
        simp
      · have e1 : prepLoop address path (line :: rest) true rwHost acc =
            prepLoop address path rest true rwHost (acc ++ '\r' :: '\n' :: line) := by
          simp only [prepLoop]
          rw [if_neg hnotfalse, if_neg hh]
        have e2 : hostRest address (line :: rest) rwHost =
            '\r' :: '\n' :: (line ++ hostRest address rest rwHost) := by
          simp only [hostRest]
          rw [if_neg hh]
        rw [e1, ih rwHost _, e2]
        simp

/-- With the one-shot Host flag already spent, the tail loop copies every
line verbatim. -/
theorem hostRest_true (address : List Char) :
    ∀ lines : List (List Char), hostRest address lines true = joinTail lines := by
  intro lines
  induction lines with
  | nil => rfl
  | cons line rest ih =>
      have hcond : ¬ ((true : Bool) = false ∧ hostTag.isPrefixOf line = true) := by
        simp
      simp only [hostRest]
      rw [if_neg hcond]
      simp only [joinTail]
      rw [ih]

/-- When no line starts with `Host:`, the tail loop copies every line
verbatim even with the Host flag unspent. -/
theorem hostRest_noHost (address : List Char) :
    ∀ lines : List (List Char),
      (∀ l ∈ lines, hostTag.isPrefixOf l = false) →
      hostRest address lines false = joinTail lines := by
  intro lines
  induction lines with
  | nil =>
      intro _
      rfl
  | cons line rest ih =>
      intro h
      have hl : hostTag.isPrefixOf line = false := h line (List.mem_cons_self _ _)
      simp only [hostRest]
      rw [hl, if_neg (by simp)]
      simp only [joinTail]
      rw [ih (fun l hl' => h l (List.mem_cons_of_mem _ hl'))]

/-- With exactly one `Host:` line, the tail loop replaces it by
`Host: <address>` and copies everything else verbatim. -/
theorem hostRest_split (address hostLine : List Char) (post : List (List Char)) :
    ∀ pre : List (List Char),
      (∀ l ∈ pre, hostTag.isPrefixOf l = false) →
      hostTag.isPrefixOf hostLine = true →
      hostRest address (pre ++ hostLine :: post) false =
        joinTail (pre ++ (hostHdr ++ address) :: post) := by
  intro pre
  induction pre with
  | nil =>
      intro _ hh
      simp only [List.nil_append, hostRest]
      rw [hh, if_pos (by simp)]
      simp only [joinTail]
      rw [hostRest_true]
  | cons l pre' ih =>
      intro h hh
      have hl : hostTag.isPrefixOf l = false := h l (List.mem_cons_self _ _)
      simp only [List.cons_append, hostRest]
      rw [hl, if_neg (by simp)]
      simp only [joinTail, List.append_eq]
      rw [ih (fun l' hl' => h l' (List.mem_cons_of_mem _ hl')) hh]

/-- The tail produced by `hostRest` is empty or starts with CRLF. -/
theorem hostRest_shape (address : List Char) (lines : List (List Char))
    (rwHost : Bool) :
    hostRest address lines rwHost = [] ∨
      ∃ t, hostRest address lines rwHost = '\r' :: '\n' :: t := by
  cases lines with
  | nil =>
      left
      rfl
  | cons line rest =>
      right
      by_cases hh : rwHost = false ∧ hostTag.isPrefixOf line = true
      · refine ⟨hostHdr ++ address ++ hostRest address rest true, ?_⟩
        simp only [hostRest]
        rw [if_pos hh]
      · refine ⟨line ++ hostRest address rest rwHost, ?_⟩
        simp only [hostRest]
        rw [if_neg hh]

/-- Closed form of `prepare_request` when the first line has at least
three space-separated tokens: the rebuilt request line followed by the
`hostRest` tail. -/
theorem prepare_request_eq (request address path line0 : List Char)
    (rest : List (List Char)) (v : List Char)
    (hsplit : splitCRLF request = line0 :: rest)
    (hv : (splitChar ' ' line0).get? 2 = some v) :
    prepare_request request address path =
      Except.ok ((((splitChar ' ' line0).headD []) ++ ' ' :: (path ++ ' ' :: v)) ++
        hostRest address rest false) := by
  unfold prepare_request
  rw [hsplit]
  have hstep : prepLoop address path (line0 :: rest) false false [] =
      prepLoop address path rest true false
        (((splitChar ' ' line0).headD []) ++ ' ' :: (path ++ ' ' :: v)) := by
    simp only [prepLoop]
    rw [if_pos trivial, hv]
  rw [hstep, prepLoop_true]

/-- C5: for a request whose first line has exactly the three
space-separated tokens `m`, `t`, `v` and any (CRLF-free, as every path
derived from a request-target is) path, the rewrite succeeds and the
first line of its output is exactly `m ++ " " ++ path ++ " " ++ v`: the
method and version tokens are copied verbatim and only the target is
replaced. -/
theorem c5_request_line (request address path m t v : List Char)
    (hline : splitChar ' ' ((splitCRLF request).headD []) = [m, t, v])
    (hpath : hasCRLF path = false) :
    ∃ out, prepare_request request address path = Except.ok out ∧
      (splitCRLF out).headD [] = m ++ ' ' :: (path ++ ' ' :: v) := by
  obtain ⟨line0, rest, hsplit⟩ := List.exists_cons_of_ne_nil (splitCRLF_ne_nil request)
  have hhead : (splitCRLF request).headD [] = line0 := by
    rw [hsplit]
    rfl
  rw [hhead] at hline
  have hv : (splitChar ' ' line0).get? 2 = some v := by
    rw [hline]
    rfl
  have hm : (splitChar ' ' line0).headD [] = m := by
    rw [hline]
    rfl
  have hline0 : hasCRLF line0 = false :=
    hasCRLF_of_mem_splitCRLF request line0 (by rw [hsplit]; exact List.mem_cons_self _ _)
  have hacc : hasCRLF (m ++ ' ' :: (path ++ ' ' :: v)) = false :=
    reqline_hasCRLF_false line0 path m t v hline hline0 hpath
  have heq := prepare_request_eq request address path line0 rest v hsplit hv
  rw [hm] at heq
  refine ⟨_, heq, ?_⟩
  rcases hostRest_shape address rest false with hsh | ⟨tl, hsh⟩
  · rw [hsh, List.append_nil, splitCRLF_of_no _ hacc]
    rfl
  · rw [hsh, splitCRLF_append_crlf _ _ hacc]
    rfl

/-- C5 witness: a concrete three-token request line is rewritten to
`GET /p HTTP/1.0` with method and version intact. -/
theorem c5_request_line_witness :
    splitChar ' ' ((splitCRLF ("GET /a HTTP/1.0\r\nHost: h\r\nX: y".toList)).headD []) =
        [("GET".toList), ("/a".toList), ("HTTP/1.0".toList)] ∧
      hasCRLF ("/p".toList) = false ∧
      ∃ out, prepare_request ("GET /a HTTP/1.0\r\nHost: h\r\nX: y".toList)
            ("ad".toList) ("/p".toList) = Except.ok out ∧
          (splitCRLF out).headD [] =
            ("GET".toList) ++ ' ' :: (("/p".toList) ++ ' ' :: ("HTTP/1.0".toList)) :=
  ⟨by decide, by decide,
    c5_request_line ("GET /a HTTP/1.0\r\nHost: h\r\nX: y".toList) ("ad".toList)
      ("/p".toList) ("GET".toList) ("/a".toList) ("HTTP/1.0".toList)
      (by decide) (by decide)⟩

/-- C7: when no line after the first starts with `Host:`, no Host line is
synthesized: the output is the original request with only the request
line replaced — every later line is passed through unchanged. -/
theorem c7_no_host_no_synthesis (request address path line0 m t v : List Char)
    (rest : List (List Char))
    (hsplit : splitCRLF request = line0 :: rest)
    (hline : splitChar ' ' line0 = [m, t, v])
    (hrest : ∀ l ∈ rest, hostTag.isPrefixOf l = false)
    (hpath : hasCRLF path = false) :
    ∃ out, prepare_request request address path = Except.ok out ∧
      splitCRLF out = (m ++ ' ' :: (path ++ ' ' :: v)) :: rest := by
  have hv : (splitChar ' ' line0).get? 2 = some v := by
    rw [hline]
    rfl
  have hm : (splitChar ' ' line0).headD [] = m := by
    rw [hline]
    rfl
  have hline0 : hasCRLF line0 = false :=
    hasCRLF_of_mem_splitCRLF request line0 (by rw [hsplit]; exact List.mem_cons_self _ _)
  have hacc : hasCRLF (m ++ ' ' :: (path ++ ' ' :: v)) = false :=
    reqline_hasCRLF_false line0 path m t v hline hline0 hpath
  have hmemrest : ∀ l ∈ rest, hasCRLF l = false := fun l hl =>
    hasCRLF_of_mem_splitCRLF request l (by rw [hsplit]; exact List.mem_cons_of_mem _ hl)
  have heq := prepare_request_eq request address path line0 rest v hsplit hv
  rw [hm, hostRest_noHost address rest hrest] at heq
  refine ⟨_, heq, ?_⟩
  exact splitCRLF_joinTail rest _ hacc hmemrest

/-- C7 witness: a request with no Host header keeps its single other
header untouched and gains none. -/
theorem c7_no_host_no_synthesis_witness :
    splitCRLF ("GET /a HTTP/1.0\r\nA: b".toList) =
        ("GET /a HTTP/1.0".toList) :: [("A: b".toList)] ∧
      (∀ l ∈ [("A: b".toList)], hostTag.isPrefixOf l = false) ∧
      ∃ out, prepare_request ("GET /a HTTP/1.0\r\nA: b".toList)
            ("ad".toList) ("/p".toList) = Except.ok out ∧
          splitCRLF out =
            (("GET".toList) ++ ' ' :: (("/p".toList) ++ ' ' :: ("HTTP/1.0".toList))) ::
              [("A: b".toList)] :=
  ⟨by decide, by decide,
    c7_no_host_no_synthesis ("GET /a HTTP/1.0\r\nA: b".toList) ("ad".toList)
      ("/p".toList) ("GET /a HTTP/1.0".toList) ("GET".toList) ("/a".toList)
      ("HTTP/1.0".toList) [("A: b".toList)] (by decide) (by decide) (by decide)
      (by decide)⟩

/-- C6: with exactly one `Host:` line among the lines after the first,
the output has that line replaced by `Host: <address>`, every other line
byte-identical and in order, and exactly one `Host:` line overall among
the lines after the first. -/
theorem c6_host_rewrite (request address path line0 m t v hostLine : List Char)
    (pre post : List (List Char))
    (hsplit : splitCRLF request = line0 :: (pre ++ hostLine :: post))
    (hline : splitChar ' ' line0 = [m, t, v])
    (hhost : hostTag.isPrefixOf hostLine = true)
    (hpre : ∀ l ∈ pre, hostTag.isPrefixOf l = false)
    (hpost : ∀ l ∈ post, hostTag.isPrefixOf l = false)
    (hpath : hasCRLF path = false)
    (haddr : hasCRLF address = false) :
    ∃ out, prepare_request request address path = Except.ok out ∧
      splitCRLF out =
        (m ++ ' ' :: (path ++ ' ' :: v)) :: (pre ++ (hostHdr ++ address) :: post) ∧
      (pre ++ (hostHdr ++ address) :: post).countP
          (fun l => hostTag.isPrefixOf l) = 1 := by
  have hv : (splitChar ' ' line0).get? 2 = some v := by
    rw [hline]
    rfl
  have hm : (splitChar ' ' line0).headD [] = m := by
    rw [hline]
    rfl
  have hline0 : hasCRLF line0 = false :=
    hasCRLF_of_mem_splitCRLF request line0 (by rw [hsplit]; exact List.mem_cons_self _ _)
  have hacc : hasCRLF (m ++ ' ' :: (path ++ ' ' :: v)) = false :=
    reqline_hasCRLF_false line0 path m t v hline hline0 hpath
  have hnewhost : hasCRLF (hostHdr ++ address) = false := by
    have h2 : hostHdr = ['H', 'o', 's', 't', ':', ' '] := by decide
    have h3 : ("Host:".toList) = ['H', 'o', 's', 't', ':'] := by decide
    have hsh : hostHdr ++ address = ("Host:".toList) ++ ' ' :: address := by
      rw [h2, h3]
      rfl
    rw [hsh]
    exact hasCRLF_append_space _ _ (by decide) haddr
  have hph : hostTag.isPrefixOf (hostHdr ++ address) = true := by
    have h1 : hostTag = ['H', 'o', 's', 't', ':'] := by decide
    have h2 : hostHdr = ['H', 'o', 's', 't', ':', ' '] := by decide
    rw [h1, h2]
    simp [List.isPrefixOf]
  have hmemtail : ∀ l ∈ pre ++ hostLine :: post, hasCRLF l = false := fun l hl =>
    hasCRLF_of_mem_splitCRLF request l (by rw [hsplit]; exact List.mem_cons_of_mem _ hl)
  have heq := prepare_request_eq request address path line0 (pre ++ hostLine :: post) v
    hsplit hv
  rw [hm, hostRest_split address hostLine post pre hpre hhost] at heq
  refine ⟨_, heq, ?_, ?_⟩
  · refine splitCRLF_joinTail _ _ hacc ?_
    intro l hl
    rcases List.mem_append.mp hl with h1 | h2
    · exact hmemtail l (List.mem_append_left _ h1)
    · rcases List.mem_cons.mp h2 with e | h3
      · subst e
        exact hnewhost
      · exact hmemtail l (List.mem_append_right _ (List.mem_cons_of_mem _ h3))
  · have hpre0 : (pre.countP fun l => hostTag.isPrefixOf l) = 0 :=
      List.countP_eq_zero.mpr (by
        intro a ha hcontra
        rw [hpre a ha] at hcontra
        simp at hcontra)
    have hpost0 : (post.countP fun l => hostTag.isPrefixOf l) = 0 :=
      List.countP_eq_zero.mpr (by
        intro a ha hcontra
        rw [hpost a ha] at hcontra
        simp at hcontra)
    rw [List.countP_append, List.countP_cons, hpre0, hpost0, hph]
    simp

/-- C6 witness: the single `Host: old` line of a concrete request is
replaced by `Host: nh` with the surrounding headers byte-identical. -/
theorem c6_host_rewrite_witness :
    splitCRLF ("GET /a HTTP/1.0\r\nA: b\r\nHost: old\r\nC: d".toList) =
        ("GET /a HTTP/1.0".toList) ::
          ([("A: b".toList)] ++ ("Host: old".toList) :: [("C: d".toList)]) ∧
      hostTag.isPrefixOf ("Host: old".toList) = true ∧
      ∃ out, prepare_request ("GET /a HTTP/1.0\r\nA: b\r\nHost: old\r\nC: d".toList)
            ("nh".toList) ("/p".toList) = Except.ok out ∧
          splitCRLF out =
            (("GET".toList) ++ ' ' :: (("/p".toList) ++ ' ' :: ("HTTP/1.0".toList))) ::
              ([("A: b".toList)] ++ (hostHdr ++ ("nh".toList)) :: [("C: d".toList)]) ∧
          ([("A: b".toList)] ++ (hostHdr ++ ("nh".toList)) :: [("C: d".toList)]).countP
              (fun l => hostTag.isPrefixOf l) = 1 :=
  ⟨by decide, by decide,
    c6_host_rewrite ("GET /a HTTP/1.0\r\nA: b\r\nHost: old\r\nC: d".toList)
      ("nh".toList) ("/p".toList) ("GET /a HTTP/1.0".toList) ("GET".toList)
      ("/a".toList) ("HTTP/1.0".toList) ("Host: old".toList)
      [("A: b".toList)] [("C: d".toList)] (by decide) (by decide) (by decide)
      (by decide) (by decide) (by decide) (by decide)⟩

end ProxyModel
